import Mathlib

/-!
Shallow embedding of the CSV serialization core of `src/app.py`
(Personalized CSV Creator).  The embedded parts are the value formatter
(`format_number`, `convert_value`), the quoting and escaping logic
(`needs_quote`, `escape_text`, `format_cells`), configuration validation
(`validate_settings`), and the line generator (`iter_csv_lines`) together
with its progress-callback protocol.  Strings are modelled as lists of
characters, and Python `None`-able strings as `Option`.
-/

/-- Python strings, modelled as lists of characters. -/
abbrev Str := List Char

/-- Python substring test `pat in s`.  An empty pattern is contained in
every string, matching Python semantics. -/
def containsSub (pat : Str) : Str → Bool
  | [] => pat.isEmpty
  | c :: cs => pat.isPrefixOf (c :: cs) || containsSub pat cs

/-- Fuel-driven worker for `replaceAll`; the fuel is an upper bound on the
input length so the recursion is structural and kernel-reducible. -/
def replaceAllAux (pat rep : Str) : Nat → Str → Str
  | _, [] => []
  | 0, s => s
  | fuel + 1, c :: cs =>
    if pat.isPrefixOf (c :: cs) && !pat.isEmpty then
      rep ++ replaceAllAux pat rep fuel ((c :: cs).drop pat.length)
    else
      c :: replaceAllAux pat rep fuel cs

/-- Python `s.replace(pat, rep)` for a non-empty pattern: scan left to
right, replacing each non-overlapping occurrence of `pat` by `rep`.
The serializer only ever calls this with the effective quote character,
which is never empty (`iter_csv_lines` substitutes a double quote), so the
empty-pattern case is left as the identity. -/
def replaceAll (pat rep s : Str) : Str := replaceAllAux pat rep s.length s

/-- Character-by-character doubling of a single quote character; used to
state and prove facts about `escape_text` when the quote is one character
long (which configuration validation guarantees). -/
def escapePointwise (q : Char) : Str → Str
  | [] => []
  | c :: cs => (if c = q then [q, q] else [c]) ++ escapePointwise q cs

/-- Reversal of doubled-quote escaping: every doubled occurrence of the
quote character collapses back to a single occurrence. -/
def unescape (q : Char) : Str → Str
  | [] => []
  | [c] => [c]
  | c1 :: c2 :: rest =>
    if c1 = q ∧ c2 = q then q :: unescape q rest
    else c1 :: unescape q (c2 :: rest)

/-- The three quoting modes of the application (radio buttons `"none"`,
`"text"`, `"all"`). -/
inductive QuotingMode where
  | none
  | text
  | all
deriving DecidableEq

/-- Embedding of `iter_csv_lines.needs_quote` (src/app.py lines 472-483):
quote everything in mode `all`; quote text-like fields in mode `text`; and
in every mode quote when the field contains the (non-empty) separator, a
line break (`\n` or `\r`), or the (non-empty) quote character. -/
def needs_quote (quoting_mode : QuotingMode) (separator quote_char : Str)
    (text : Str) (is_text : Bool) : Bool :=
  if quoting_mode == QuotingMode.all then true
  else if quoting_mode == QuotingMode.text && is_text then true
  else if !separator.isEmpty && containsSub separator text then true
  else if containsSub ['\n'] text || containsSub ['\r'] text then true
  else if !quote_char.isEmpty && containsSub quote_char text then true
  else false

/-- Embedding of `iter_csv_lines.escape_text` (src/app.py lines 485-486):
`text.replace(quote_char, quote_char * 2)`. -/
def escape_text (quote_char text : Str) : Str :=
  replaceAll quote_char (quote_char ++ quote_char) text

/-- One field of `iter_csv_lines.format_cells`: wrap in the quote
character with escaping when `needs_quote` holds, otherwise emit the raw
text unchanged. -/
def format_field (quoting_mode : QuotingMode) (separator quote_char : Str)
    (cell : Str × Bool) : Str :=
  if needs_quote quoting_mode separator quote_char cell.1 cell.2 then
    quote_char ++ escape_text quote_char cell.1 ++ quote_char
  else cell.1

/-- Embedding of `iter_csv_lines.format_cells` (src/app.py lines
488-495): format every cell and join with the separator. -/
def format_cells (quoting_mode : QuotingMode) (separator quote_char : Str)
    (cells : List (Str × Bool)) : Str :=
  List.intercalate separator (cells.map (format_field quoting_mode separator quote_char))

/-- Fuel-driven decimal digits of a natural number (most significant
first); fuel at least the number itself suffices. -/
def natToStrAux : Nat → Nat → Str
  | 0, _ => []
  | _ + 1, 0 => []
  | fuel + 1, n + 1 =>
    natToStrAux fuel ((n + 1) / 10) ++ [Nat.digitChar ((n + 1) % 10)]

/-- Decimal representation of a natural number. -/
def natToStr (n : Nat) : Str :=
  if n = 0 then ['0'] else natToStrAux n n

/-- Zero-padded decimal representation, as Python `"%0*d"` for
non-negative input. -/
def padZeros (w n : Nat) : Str :=
  List.replicate (w - (natToStr n).length) '0' ++ natToStr n

/-- Drop trailing `'0'` characters. -/
def trimZeros (s : Str) : Str :=
  (s.reverse.dropWhile (fun c => c == '0')).reverse

/-- Embedding of the tail of `format_number` (src/app.py lines 612-614):
when the formatted string contains a dot, apply `rstrip("0")`, then
`rstrip(".")`, then `or "0"`. -/
def stripFormatted (s : Str) : Str :=
  if containsSub ['.'] s then
    let t := ((s.reverse.dropWhile (fun c => c == '0')).dropWhile (fun c => c == '.')).reverse
    if t.isEmpty then ['0'] else t
  else s

/-- Division rounded to the nearest integer with ties to even, the
rounding used by correctly-rounded float formatting. -/
def roundHalfEvenDiv (a b : Nat) : Nat :=
  let q := a / b
  let r := a % b
  if 2 * r < b then q
  else if b < 2 * r then q + 1
  else if q % 2 = 0 then q else q + 1

/-- Fixed-point rendering of trimmed significand digits with leading
decimal exponent `e` (position of the first significant digit). -/
def fixedRender (digits : Str) (e : Int) : Str :=
  if 0 ≤ e then
    if digits.length ≤ e.toNat + 1 then
      digits ++ List.replicate (e.toNat + 1 - digits.length) '0'
    else digits.take (e.toNat + 1) ++ ['.'] ++ digits.drop (e.toNat + 1)
  else ['0', '.'] ++ List.replicate (e.natAbs - 1) '0' ++ digits

/-- Scientific rendering of trimmed significand digits, as Python `%g`:
`d[.ddd]e±XX` with an exponent of at least two digits. -/
def sciRender (digits : Str) (e : Int) : Str :=
  digits.take 1 ++ (if digits.length ≤ 1 then [] else ['.'] ++ digits.drop 1)
    ++ ['e'] ++ (if e < 0 then ['-'] else ['+']) ++ padZeros 2 e.natAbs

/-- Python `format(x, ".pg")` on the positive value `n / 10^s` (`n > 0`,
`p ≥ 1`): round to `p` significant digits with ties to even, drop
insignificant trailing zeros of the significand, and choose fixed
notation exactly when the decimal exponent `e` satisfies `-4 ≤ e < p`. -/
def gFormatPos (p n s : Nat) : Str :=
  let D := (natToStr n).length
  let d0 := if p ≤ D then roundHalfEvenDiv n (10 ^ (D - p)) else n * 10 ^ (p - D)
  let de : Nat × Int :=
    if d0 = 10 ^ p then (10 ^ (p - 1), (D : Int) - (s : Int))
    else (d0, (D : Int) - 1 - (s : Int))
  let digits := trimZeros (natToStr de.1)
  if -4 ≤ de.2 ∧ de.2 < (p : Int) then fixedRender digits de.2 else sciRender digits de.2

/-- Python `format(x, ".pg")` on the value `m / 10^s` given as an exact
decimal (sign handled here, zero rendered as `"0"`). -/
def gFormat (p : Nat) (m : Int) (s : Nat) : Str :=
  if m = 0 then ['0']
  else if m < 0 then '-' :: gFormatPos (max p 1) m.natAbs s
  else gFormatPos (max p 1) m.natAbs s

/-- A Python `numbers.Number` as seen by `format_number`: either a finite
value carried as an exact decimal `m / 10^s` together with its natural
representation `str(value)`, a non-finite float, or a number (such as a
complex) on which `float(value)` raises. -/
inductive PyNumber where
  | finite (pyrepr : Str) (m : Int) (s : Nat)
  | nan
  | inf
  | neginf
  | unconvertible (pyrepr : Str)
deriving DecidableEq

/-- Python `str(value)` on a number: the natural representation. -/
def pyStr : PyNumber → Str
  | .finite r _ _ => r
  | .nan => "nan".toList
  | .inf => "inf".toList
  | .neginf => "-inf".toList
  | .unconvertible r => r

/-- The guarded `format(float(value), f".{sig_figs}g")` of `format_number`:
`none` models `float(value)` raising (caught by the `except` branch);
non-finite floats format to their literal names. -/
def floatConvert : PyNumber → Nat → Option Str
  | .finite _ m s, p => some (gFormat p m s)
  | .nan, _ => some ("nan".toList)
  | .inf, _ => some ("inf".toList)
  | .neginf, _ => some ("-inf".toList)
  | .unconvertible _, _ => none

/-- Embedding of `format_number` (src/app.py lines 602-614): without a
significant-figures setting return `str(value)`; otherwise try `%g`
formatting at that many significant digits, falling back to `str(value)`
when the conversion raises, and strip per `stripFormatted`. -/
def format_number (value : PyNumber) (sig_figs : Option Nat) : Str :=
  match sig_figs with
  | none => pyStr value
  | some p =>
    match floatConvert value p with
    | none => pyStr value
    | some formatted => stripFormatted formatted

/-- A Python `datetime.datetime` or `pandas.Timestamp`: calendar fields,
sub-second microseconds, and an optional UTC offset in minutes. -/
structure PyDateTime where
  year : Nat
  month : Nat
  day : Nat
  hour : Nat
  minute : Nat
  second : Nat
  microsecond : Nat
  tz : Option Int
deriving DecidableEq

/-- Python `date.isoformat()`: `YYYY-MM-DD`. -/
def isoDate (y m d : Nat) : Str :=
  padZeros 4 y ++ ['-'] ++ padZeros 2 m ++ ['-'] ++ padZeros 2 d

/-- Rendering of a UTC offset in minutes as `±HH:MM`. -/
def isoOffset (off : Int) : Str :=
  if off < 0 then
    ['-'] ++ padZeros 2 (off.natAbs / 60) ++ [':'] ++ padZeros 2 (off.natAbs % 60)
  else ['+'] ++ padZeros 2 (off.toNat / 60) ++ [':'] ++ padZeros 2 (off.toNat % 60)

/-- Python `datetime.isoformat()`: date, `T`, time, microseconds when
non-zero, and the offset when aware. -/
def isoDateTime (t : PyDateTime) : Str :=
  isoDate t.year t.month t.day ++ ['T'] ++ padZeros 2 t.hour ++ [':']
    ++ padZeros 2 t.minute ++ [':'] ++ padZeros 2 t.second
    ++ (if t.microsecond = 0 then [] else ['.'] ++ padZeros 6 t.microsecond)
    ++ (match t.tz with | Option.none => [] | Option.some off => isoOffset off)

/-- A cell value as dispatched by `iter_csv_lines.convert_value`
(src/app.py lines 441-470): missing (`pd.isna`), `pd.Timestamp`,
`datetime.datetime`, `datetime.date`, `pd.Timedelta` (carried as its
`str`), a non-boolean number, a boolean, a non-string value exposing
`isoformat` (`none` models the call raising), or arbitrary text. -/
inductive CellValue where
  | missing
  | timestamp (t : PyDateTime)
  | pydatetime (t : PyDateTime)
  | pydate (y m d : Nat)
  | timedelta (pyrepr : Str)
  | number (n : PyNumber)
  | boolean (b : Bool)
  | isoformattable (iso : Option Str) (pyrepr : Str)
  | text (s : Str)
deriving DecidableEq

/-- Embedding of `iter_csv_lines.convert_value`: produce the field text
and the text-like flag for one cell, looking up the column's
significant-figures setting for numbers. -/
def convert_value (sig : Str → Option Nat) (value : CellValue) (column : Str) : Str × Bool :=
  match value with
  | .missing => ([], false)
  | .timestamp t =>
    if t.tz.isSome then (isoDateTime t, false)
    else if t.hour == 0 && t.minute == 0 && t.second == 0 && t.microsecond == 0 then
      (isoDate t.year t.month t.day, false)
    else (isoDateTime t, false)
  | .pydatetime t =>
    if t.tz.isSome then (isoDateTime t, false)
    else if t.hour == 0 && t.minute == 0 && t.second == 0 && t.microsecond == 0 then
      (isoDate t.year t.month t.day, false)
    else (isoDateTime t, false)
  | .pydate y m d => (isoDate y m d, false)
  | .timedelta r => (r, false)
  | .number n => (format_number n (sig column), false)
  | .boolean b => (if b then "TRUE".toList else "FALSE".toList, false)
  | .isoformattable iso r =>
    match iso with
    | Option.some s => (s, false)
    | Option.none => (r, true)
  | .text s => (s, true)

/-- Resolved user settings as read by `iter_csv_lines` and
`validate_settings`: the results of `get_separator()` and
`get_quote_char()` (`none` models Python `None`) plus the quoting mode. -/
structure Settings where
  separator : Option Str
  quoting_mode : QuotingMode
  quote_char : Option Str
deriving DecidableEq

/-- Python falsiness of an optional string: `None` or the empty string. -/
def strFalsy : Option Str → Bool
  | Option.none => true
  | Option.some s => s.isEmpty

/-- Python `value or default` on an optional string. -/
def orFallback (v : Option Str) (d : Str) : Str :=
  match v with
  | Option.none => d
  | Option.some s => if s.isEmpty then d else s

/-- The module-level `DEFAULT_SEPARATOR = ","`. -/
def DEFAULT_SEPARATOR : Str := [',']

/-- The separator actually used by `iter_csv_lines` (line 433):
`self.get_separator() or DEFAULT_SEPARATOR`. -/
def effective_separator (cfg : Settings) : Str :=
  orFallback cfg.separator DEFAULT_SEPARATOR

/-- The quote character actually used by `iter_csv_lines` (lines 435-436):
the configured quote when truthy, else a double quote. -/
def effective_quote (cfg : Settings) : Str :=
  orFallback cfg.quote_char ['"']

/-- Embedding of `validate_settings` (src/app.py lines 317-333): reject an
empty resolved separator; reject a missing quote character when the
quoting mode is not `"none"`; reject a quote character longer than one
character. -/
def validate_settings (cfg : Settings) : Bool :=
  if strFalsy cfg.separator then false
  else if cfg.quoting_mode != QuotingMode.none && strFalsy cfg.quote_char then false
  else if !strFalsy cfg.quote_char && (cfg.quote_char.getD []).length != 1 then false
  else true

/-- The in-memory table: ordered column names and rows of cell values in
column order. -/
structure Table where
  columns : List Str
  rows : List (List CellValue)

/-- The header line of `iter_csv_lines` (line 497): every column name is a
text-like field. -/
def header_line (cfg : Settings) (table : Table) : Str :=
  format_cells cfg.quoting_mode (effective_separator cfg) (effective_quote cfg)
    (table.columns.map (fun c => (c, true)))

/-- One data line of `iter_csv_lines` (lines 506-508): convert each cell
with its column's precision and format the row. -/
def row_line (cfg : Settings) (sig : Str → Option Nat) (table : Table)
    (r : List CellValue) : Str :=
  format_cells cfg.quoting_mode (effective_separator cfg) (effective_quote cfg)
    ((r.zip table.columns).map (fun p => convert_value sig p.1 p.2))

/-- The row loop of `iter_csv_lines` (lines 506-510): emit one line per
row and, when progress reporting is active, one `(idx, total)` call after
every 1000th row (`idx` counts from 1). -/
def rowPass (lineOf : List CellValue → Str) (progressOn : Bool) (total : Nat) :
    List (List CellValue) → Nat → List Str × List (Nat × Nat)
  | [], _ => ([], [])
  | r :: rs, idx =>
    let rest := rowPass lineOf progressOn total rs (idx + 1)
    (lineOf r :: rest.1,
      (if progressOn && idx % 1000 == 0 then [(idx, total)] else []) ++ rest.2)

/-- Outcome of one pass of `iter_csv_lines`: the emitted lines in order,
and the progress-callback invocations in order. -/
structure IterOut where
  lines : List Str
  calls : List (Nat × Nat)
deriving DecidableEq

/-- Embedding of `iter_csv_lines` (src/app.py lines 427-513): resolve the
effective separator and quote, emit the header then one line per (possibly
`limit`-bounded) row, and when a progress callback is supplied and no
limit is set, invoke it with `(0, total)` first, after every 1000th row,
and with `(total, total)` last. -/
def iter_csv_lines (cfg : Settings) (sig : Str → Option Nat) (table : Table)
    (limit : Option Nat) (hasCallback : Bool) : IterOut :=
  let total_rows := table.rows.length
  let progressOn := hasCallback && limit.isNone
  let startCalls := if progressOn then [(0, total_rows)] else []
  let rows' := match limit with
    | Option.some n => table.rows.take n
    | Option.none => table.rows
  let body := rowPass (row_line cfg sig table) progressOn total_rows rows' 1
  let endCalls := if progressOn then [(total_rows, total_rows)] else []
  ⟨header_line cfg table :: body.1, startCalls ++ body.2 ++ endCalls⟩

/-- The guarded conversion entry point (`save_csv` feeding
`perform_conversion`, src/app.py lines 363-409): settings are validated
before any row is read, and an invalid configuration produces no output at
all. -/
def save_csv (cfg : Settings) (sig : Str → Option Nat) (table : Table) :
    Option (List Str) :=
  if validate_settings cfg then
    Option.some (iter_csv_lines cfg sig table Option.none true).lines
  else Option.none

/-! Helper lemmas. -/

theorem isEmpty_false_of_ne_nil {s : Str} (h : s ≠ []) : s.isEmpty = false := by
  cases s with
  | nil => exact absurd rfl h
  | cons a t => rfl

theorem mem_of_head?_eq {α : Type} {l : List α} {a : α} (h : a ∈ l.head?) : a ∈ l := by
  cases l with
  | nil => simp at h
  | cons b t =>
    simp only [List.head?, Option.mem_def, Option.some.injEq] at h
    simp [h]

theorem replaceAllAux_single (q : Char) :
    ∀ (s : Str) (fuel : Nat), s.length ≤ fuel →
      replaceAllAux [q] [q, q] fuel s = escapePointwise q s
  | [], fuel, _ => by cases fuel <;> simp [replaceAllAux, escapePointwise]
  | c :: cs, fuel, h => by
    cases fuel with
    | zero => simp at h
    | succ f =>
      have hf : cs.length ≤ f := by simpa using h
      by_cases hc : c = q
      · have hqc : (q == c) = true := by simp [hc]
        simp [replaceAllAux, List.isPrefixOf, hqc,
          replaceAllAux_single q cs f hf, escapePointwise, hc]
      · have hqc : (q == c) = false := by
          simp [Ne.symm hc]
        simp [replaceAllAux, List.isPrefixOf, hqc,
          replaceAllAux_single q cs f hf, escapePointwise, hc]

theorem escape_text_single (q : Char) (s : Str) :
    escape_text [q] s = escapePointwise q s := by
  unfold escape_text replaceAll
  exact replaceAllAux_single q s s.length le_rfl

theorem escapePointwise_eq_nil {q : Char} : ∀ {s : Str}, escapePointwise q s = [] → s = [] := by
  intro s h
  cases s with
  | nil => rfl
  | cons c cs =>
    simp only [escapePointwise] at h
    split at h <;> simp at h

theorem unescape_escapePointwise (q : Char) :
    ∀ s : Str, unescape q (escapePointwise q s) = s
  | [] => rfl
  | c :: cs => by
    by_cases hc : c = q
    · have h1 : escapePointwise q (c :: cs) = q :: q :: escapePointwise q cs := by
        simp [escapePointwise, hc]
      calc unescape q (escapePointwise q (c :: cs))
          = unescape q (q :: q :: escapePointwise q cs) := by rw [h1]
        _ = q :: unescape q (escapePointwise q cs) := by simp [unescape]
        _ = q :: cs := by rw [unescape_escapePointwise q cs]
        _ = c :: cs := by rw [hc]
    · have h1 : escapePointwise q (c :: cs) = c :: escapePointwise q cs := by
        simp [escapePointwise, hc]
      rw [h1]
      cases hcs : escapePointwise q cs with
      | nil =>
        have hnil : cs = [] := escapePointwise_eq_nil hcs
        subst hnil
        simp [escapePointwise, unescape]
      | cons d ds =>
        have hnot : ¬(c = q ∧ d = q) := fun hand => hc hand.1
        calc unescape q (c :: d :: ds)
            = c :: unescape q (d :: ds) := by simp [unescape, hnot]
          _ = c :: unescape q (escapePointwise q cs) := by rw [← hcs]
          _ = c :: cs := by rw [unescape_escapePointwise q cs]

theorem needs_quote_of_structural (mode : QuotingMode) (sep q text : Str) (is_text : Bool)
    (hsep : sep ≠ []) (hq : q ≠ [])
    (h : (containsSub sep text || containsSub ['\n'] text
        || containsSub ['\r'] text || containsSub q text) = true) :
    needs_quote mode sep q text is_text = true := by
  have hsep' : sep.isEmpty = false := isEmpty_false_of_ne_nil hsep
  have hq' : q.isEmpty = false := isEmpty_false_of_ne_nil hq
  cases mode <;> cases is_text <;>
    cases h1 : containsSub sep text <;>
      cases h2 : containsSub ['\n'] text <;>
        cases h3 : containsSub ['\r'] text <;>
          cases h4 : containsSub q text <;>
            simp_all [needs_quote]

/-- C1: for every formatted field, mode `all` always quotes; mode `text`
quotes exactly when the field is text-like or the raw text contains the
separator, a line break, or the quote character; mode `none` quotes
exactly when one of those structural characters is present. -/
theorem needs_quote_mode_characterization
    (sep q text : Str) (is_text : Bool)
    (hsep : sep ≠ []) (hq : q ≠ []) :
    needs_quote QuotingMode.all sep q text is_text = true ∧
    needs_quote QuotingMode.text sep q text is_text
      = (is_text || (containsSub sep text || containsSub ['\n'] text
          || containsSub ['\r'] text || containsSub q text)) ∧
    needs_quote QuotingMode.none sep q text is_text
      = (containsSub sep text || containsSub ['\n'] text
          || containsSub ['\r'] text || containsSub q text) := by
  have hsep' : sep.isEmpty = false := isEmpty_false_of_ne_nil hsep
  have hq' : q.isEmpty = false := isEmpty_false_of_ne_nil hq
  refine ⟨by simp [needs_quote], ?_, ?_⟩ <;>
    cases is_text <;>
      cases h1 : containsSub sep text <;>
        cases h2 : containsSub ['\n'] text <;>
          cases h3 : containsSub ['\r'] text <;>
            cases h4 : containsSub q text <;>
              simp_all [needs_quote]

theorem needs_quote_mode_characterization_witness :
    needs_quote QuotingMode.none [','] ['"'] "a,b".toList false = true := by
  have h := needs_quote_mode_characterization [','] ['"'] "a,b".toList false
    (by decide) (by decide)
  rw [h.2.2]
  decide

/-- C2: a field containing the separator, a line break, or the quote
character is quoted in every mode; its emitted form is the quote-wrapped,
doubled-quote-escaped text, and stripping the outer quotes then reversing
the doubling restores the original text; unquoted fields are emitted with
no escaping at all. -/
theorem structural_field_roundtrip
    (mode : QuotingMode) (sep : Str) (q : Char) (text : Str) (is_text : Bool)
    (hsep : sep ≠ [])
    (hstruct : (containsSub sep text || containsSub ['\n'] text
        || containsSub ['\r'] text || containsSub [q] text) = true) :
    needs_quote mode sep [q] text is_text = true ∧
    format_field mode sep [q] (text, is_text)
      = [q] ++ escape_text [q] text ++ [q] ∧
    unescape q (escape_text [q] text) = text ∧
    (∀ t b, needs_quote mode sep [q] t b = false →
      format_field mode sep [q] (t, b) = t) := by
  have hnq : needs_quote mode sep [q] text is_text = true :=
    needs_quote_of_structural mode sep [q] text is_text hsep (by simp) hstruct
  refine ⟨hnq, ?_, ?_, ?_⟩
  · simp [format_field, hnq]
  · rw [escape_text_single, unescape_escapePointwise]
  · intro t b hfb
    simp [format_field, hfb]

theorem structural_field_roundtrip_witness :
    format_field QuotingMode.none [','] ['"'] ("a,\"b".toList, false)
      = "\"a,\"\"b\"".toList := by
  have h := structural_field_roundtrip QuotingMode.none [','] '"' "a,\"b".toList false
    (by decide) (by decide)
  rw [h.2.1]
  decide

/-- C3 (code bug): with a significant-figures setting, `format_number`
strips trailing zero characters whenever a dot is present anywhere in the
formatted string, which corrupts scientific-notation output: the value
12300000000.0 at 3 significant figures yields "1.23e+1" instead of
"1.23e+10".  In-range values behave as the claim states (3.14159 at 3
significant figures gives "3.14" and 2.00 gives "2"). -/
theorem format_number_exponent_strip_bug :
    format_number (PyNumber.finite "12300000000.0".toList 12300000000 0) (Option.some 3)
      = "1.23e+1".toList ∧
    format_number (PyNumber.finite "3.14159".toList 314159 5) (Option.some 3)
      = "3.14".toList ∧
    format_number (PyNumber.finite "2.0".toList 2 0) (Option.some 3) = "2".toList := by
  refine ⟨?_, ?_, ?_⟩ <;> decide

/-- C4: a configuration whose resolved separator is empty (Python-falsy)
fails validation, so the guarded conversion produces no output at all;
and for every configuration that passes validation the separator actually
used is the configured one, never the silent default. -/
theorem empty_separator_rejected
    (cfg : Settings) (sig : Str → Option Nat) (table : Table)
    (hsep : strFalsy cfg.separator = true) :
    save_csv cfg sig table = Option.none ∧
    (∀ cfg' : Settings, validate_settings cfg' = true →
      ∀ s, cfg'.separator = Option.some s → effective_separator cfg' = s) := by
  constructor
  · simp [save_csv, validate_settings, hsep]
  · intro cfg' hv s hs
    cases hfs : strFalsy cfg'.separator with
    | true => simp [validate_settings, hfs] at hv
    | false =>
      rw [hs] at hfs
      simp only [strFalsy] at hfs
      simp [effective_separator, orFallback, hs, hfs]

theorem empty_separator_rejected_witness :
    save_csv ⟨Option.some [], QuotingMode.text, Option.some ['"']⟩
      (fun _ => Option.none) ⟨[], []⟩ = Option.none :=
  (empty_separator_rejected ⟨Option.some [], QuotingMode.text, Option.some ['"']⟩
    (fun _ => Option.none) ⟨[], []⟩ (by decide)).1

theorem rowPass_lines (f : List CellValue → Str) (p : Bool) (total : Nat) :
    ∀ (rows : List (List CellValue)) (idx : Nat),
      (rowPass f p total rows idx).1 = rows.map f
  | [], _ => rfl
  | r :: rs, idx => by
    simp [rowPass, rowPass_lines f p total rs (idx + 1)]

/-- C5: the serializer emits the header line first, then exactly one line
per row in row order: rowCount + 1 lines without a limit, and
min(limit, rowCount) + 1 lines when a row limit is given. -/
theorem line_count_header_plus_rows
    (cfg : Settings) (sig : Str → Option Nat) (table : Table) (cb : Bool) :
    (iter_csv_lines cfg sig table Option.none cb).lines
      = header_line cfg table :: table.rows.map (row_line cfg sig table) ∧
    (iter_csv_lines cfg sig table Option.none cb).lines.length
      = table.rows.length + 1 ∧
    (∀ n, (iter_csv_lines cfg sig table (Option.some n) cb).lines
      = header_line cfg table :: (table.rows.take n).map (row_line cfg sig table)) ∧
    (∀ n, (iter_csv_lines cfg sig table (Option.some n) cb).lines.length
      = min n table.rows.length + 1) := by
  refine ⟨?_, ?_, ?_, ?_⟩
  · simp [iter_csv_lines, rowPass_lines]
  · simp [iter_csv_lines, rowPass_lines]
  · intro n
    simp [iter_csv_lines, rowPass_lines]
  · intro n
    simp [iter_csv_lines, rowPass_lines, List.length_take]

/-- C6: a naive datetime (either a `pandas.Timestamp` or a
`datetime.datetime`) at exactly midnight is emitted date-only as
`YYYY-MM-DD`, not text-like; one with a non-zero time of day or an
explicit offset is emitted in full ISO-8601 form including the time
component (and offset when present), not text-like. -/
theorem datetime_midnight_iso
    (sig : Str → Option Nat) (col : Str) (t : PyDateTime) :
    (t.tz = Option.none → t.hour = 0 → t.minute = 0 → t.second = 0 → t.microsecond = 0 →
      convert_value sig (CellValue.pydatetime t) col = (isoDate t.year t.month t.day, false) ∧
      convert_value sig (CellValue.timestamp t) col = (isoDate t.year t.month t.day, false)) ∧
    ((t.hour ≠ 0 ∨ t.minute ≠ 0 ∨ t.second ≠ 0 ∨ t.microsecond ≠ 0 ∨ t.tz ≠ Option.none) →
      convert_value sig (CellValue.pydatetime t) col = (isoDateTime t, false) ∧
      convert_value sig (CellValue.timestamp t) col = (isoDateTime t, false)) := by
  constructor
  · intro htz hh hm hs hus
    simp [convert_value, htz, hh, hm, hs, hus]
  · intro hno
    cases htz : t.tz with
    | some off => simp [convert_value, htz]
    | none =>
      rcases hno with h | h | h | h | h
      · simp [convert_value, htz, h]
      · simp [convert_value, htz, h]
      · simp [convert_value, htz, h]
      · simp [convert_value, htz, h]
      · exact absurd htz h

theorem datetime_midnight_iso_witness :
    convert_value (fun _ => Option.none)
      (CellValue.pydatetime ⟨2024, 1, 15, 0, 0, 0, 0, Option.none⟩) []
      = ("2024-01-15".toList, false) ∧
    convert_value (fun _ => Option.none)
      (CellValue.pydatetime ⟨2024, 1, 15, 8, 30, 0, 0, Option.none⟩) []
      = ("2024-01-15T08:30:00".toList, false) := by
  have h1 := (datetime_midnight_iso (fun _ => Option.none) []
    ⟨2024, 1, 15, 0, 0, 0, 0, Option.none⟩).1 rfl rfl rfl rfl rfl
  have h2 := (datetime_midnight_iso (fun _ => Option.none) []
    ⟨2024, 1, 15, 8, 30, 0, 0, Option.none⟩).2 (Or.inl (by decide))
  exact ⟨by rw [h1.1]; decide, by rw [h2.1]; decide⟩

/-- C7: a missing value formats to the empty string marked not text-like
(never a literal token), and under QuoteText mode such an empty non-text
field is emitted unquoted and unescaped. -/
theorem missing_value_empty_unquoted
    (sig : Str → Option Nat) (col : Str) (sep q : Str) :
    convert_value sig CellValue.missing col = ([], false) ∧
    needs_quote QuotingMode.text sep q [] false = false ∧
    format_field QuotingMode.text sep q ([], false) = [] := by
  have hnq : needs_quote QuotingMode.text sep q [] false = false := by
    cases hsep : sep.isEmpty <;> cases hq : q.isEmpty <;>
      simp [needs_quote, containsSub, hsep, hq]
  exact ⟨rfl, hnq, by simp [format_field, hnq]⟩

/-- C8: number formatting never fails: when the significant-figure
conversion raises (an unconvertible number) the formatter returns the
value's natural representation, a non-finite float formats to the same
string as its natural representation, and with no significant-figures
setting every number is emitted as its natural representation
unchanged. -/
theorem format_number_fallback_total (p : Nat) (r : Str) :
    format_number (PyNumber.unconvertible r) (Option.some p)
      = pyStr (PyNumber.unconvertible r) ∧
    format_number PyNumber.nan (Option.some p) = pyStr PyNumber.nan ∧
    format_number PyNumber.inf (Option.some p) = pyStr PyNumber.inf ∧
    format_number PyNumber.neginf (Option.some p) = pyStr PyNumber.neginf ∧
    (∀ v : PyNumber, format_number v Option.none = pyStr v) := by
  exact ⟨rfl, rfl, rfl, rfl, fun v => rfl⟩

theorem mem_of_getLast?_eq {α : Type} : ∀ {l : List α} {a : α}, a ∈ l.getLast? → a ∈ l
  | [], _, h => by simp at h
  | [b], a, h => by
    simp only [List.getLast?_singleton, Option.mem_def, Option.some.injEq] at h
    simp [h]
  | b :: c :: t, a, h => by
    rw [List.getLast?_cons_cons] at h
    exact List.mem_cons_of_mem _ (mem_of_getLast?_eq h)

theorem rowPass_calls_off (f : List CellValue → Str) (total : Nat) :
    ∀ (rows : List (List CellValue)) (idx : Nat),
      (rowPass f false total rows idx).2 = []
  | [], _ => rfl
  | r :: rs, idx => by
    simp [rowPass, rowPass_calls_off f total rs (idx + 1)]

theorem rowPass_calls_bounds (f : List CellValue → Str) (total : Nat) :
    ∀ (rows : List (List CellValue)) (idx : Nat) (c : Nat × Nat),
      c ∈ (rowPass f true total rows idx).2 →
      c.2 = total ∧ idx ≤ c.1 ∧ c.1 < idx + rows.length ∧ c.1 % 1000 = 0
  | [], idx, c, h => by simp [rowPass] at h
  | r :: rs, idx, c, h => by
    simp only [rowPass, Bool.true_and, List.mem_append] at h
    rcases h with h | h
    · split at h
      · rename_i hm
        simp only [List.mem_singleton] at h
        subst h
        refine ⟨rfl, le_rfl, ?_, ?_⟩
        · simp only [List.length_cons]
          omega
        · simpa using hm
      · simp at h
    · obtain ⟨h1, h2, h3, h4⟩ := rowPass_calls_bounds f total rs (idx + 1) c h
      refine ⟨h1, by omega, ?_, h4⟩
      simp only [List.length_cons]
      omega

theorem rowPass_calls_chain (f : List CellValue → Str) (total : Nat) :
    ∀ (rows : List (List CellValue)) (idx : Nat),
      List.Chain' (fun a b : Nat × Nat => a.1 < b.1) (rowPass f true total rows idx).2
  | [], idx => by simp [rowPass]
  | r :: rs, idx => by
    have ih := rowPass_calls_chain f total rs (idx + 1)
    simp only [rowPass, Bool.true_and]
    split
    · simp only [List.singleton_append]
      refine List.chain'_cons'.2 ⟨?_, ih⟩
      intro y hy
      have hmem := mem_of_head?_eq hy
      have hb := rowPass_calls_bounds f total rs (idx + 1) y hmem
      show idx < y.1
      omega
    · simpa using ih

theorem rowPass_calls_complete (f : List CellValue → Str) (total : Nat) :
    ∀ (rows : List (List CellValue)) (idx j : Nat),
      idx ≤ j → j < idx + rows.length → j % 1000 = 0 →
      (j, total) ∈ (rowPass f true total rows idx).2
  | [], idx, j, h1, h2, _ => by
    simp only [List.length_nil, Nat.add_zero] at h2
    omega
  | r :: rs, idx, j, h1, h2, h3 => by
    simp only [rowPass, Bool.true_and, List.mem_append]
    by_cases hj : j = idx
    · left
      have hmb : (idx % 1000 == 0) = true := by
        have hidx : idx % 1000 = 0 := hj ▸ h3
        simp [hidx]
      rw [if_pos hmb]
      simp [hj]
    · right
      refine rowPass_calls_complete f total rs (idx + 1) j (by omega) ?_ h3
      simp only [List.length_cons] at h2
      omega

/-- C9: on an unbounded pass with a callback, the invocations start with
`(0, total)`, end with `(total, total)`, are monotonically non-decreasing
in the reported row count, and the remaining invocations are exactly the
`(k, total)` for the multiples `k` of 1000 among the processed rows; a
bounded (preview) pass never invokes the callback. -/
theorem progress_callback_protocol
    (cfg : Settings) (sig : Str → Option Nat) (table : Table) :
    (∀ n, (iter_csv_lines cfg sig table (Option.some n) true).calls = []) ∧
    (iter_csv_lines cfg sig table Option.none true).calls.head?
      = Option.some (0, table.rows.length) ∧
    (iter_csv_lines cfg sig table Option.none true).calls.getLast?
      = Option.some (table.rows.length, table.rows.length) ∧
    List.Chain' (fun a b : Nat × Nat => a.1 ≤ b.1)
      (iter_csv_lines cfg sig table Option.none true).calls ∧
    (∀ c ∈ (iter_csv_lines cfg sig table Option.none true).calls,
      c = (0, table.rows.length) ∨ c = (table.rows.length, table.rows.length) ∨
        (c.2 = table.rows.length ∧ c.1 % 1000 = 0 ∧ 1 ≤ c.1
          ∧ c.1 ≤ table.rows.length)) ∧
    (∀ j, 1 ≤ j → j ≤ table.rows.length → j % 1000 = 0 →
      (j, table.rows.length) ∈ (iter_csv_lines cfg sig table Option.none true).calls) := by
  have hcalls : (iter_csv_lines cfg sig table Option.none true).calls
      = (0, table.rows.length)
        :: ((rowPass (row_line cfg sig table) true table.rows.length table.rows 1).2
          ++ [(table.rows.length, table.rows.length)]) := by
    simp [iter_csv_lines]
  refine ⟨?_, ?_, ?_, ?_, ?_, ?_⟩
  · intro n
    simp [iter_csv_lines, rowPass_calls_off]
  · rw [hcalls]
    rfl
  · rw [hcalls, ← List.cons_append, List.getLast?_concat]
  · rw [hcalls]
    refine List.chain'_cons'.2 ⟨fun y _ => Nat.zero_le y.1, ?_⟩
    refine List.chain'_append.2 ⟨?_, List.chain'_singleton _, ?_⟩
    · exact (rowPass_calls_chain (row_line cfg sig table) table.rows.length table.rows 1).imp
        (fun a b hab => Nat.le_of_lt hab)
    · intro x hx y hy
      have hxm := mem_of_getLast?_eq hx
      have hb := rowPass_calls_bounds (row_line cfg sig table) table.rows.length
        table.rows 1 x hxm
      have hy' : (table.rows.length, table.rows.length) = y := by
        simpa using hy
      rw [← hy']
      show x.1 ≤ table.rows.length
      omega
  · intro c hc
    rw [hcalls] at hc
    rcases List.mem_cons.1 hc with h | h
    · exact Or.inl h
    · rcases List.mem_append.1 h with h | h
      · have hb := rowPass_calls_bounds (row_line cfg sig table) table.rows.length
          table.rows 1 c h
        exact Or.inr (Or.inr ⟨hb.1, hb.2.2.2, hb.2.1, by omega⟩)
      · have : c = (table.rows.length, table.rows.length) := by simpa using h
        exact Or.inr (Or.inl this)
  · intro j h1 h2 h3
    rw [hcalls]
    refine List.mem_cons_of_mem _ (List.mem_append_left _ ?_)
    exact rowPass_calls_complete (row_line cfg sig table) table.rows.length
      table.rows 1 j h1 (by omega) h3

theorem progress_callback_protocol_witness :
    (iter_csv_lines ⟨Option.some [','], QuotingMode.text, Option.some ['"']⟩
      (fun _ => Option.none) ⟨[], [[], []]⟩ (Option.some 5) true).calls = [] ∧
    (iter_csv_lines ⟨Option.some [','], QuotingMode.text, Option.some ['"']⟩
      (fun _ => Option.none) ⟨[], [[], []]⟩ Option.none true).calls.head?
      = Option.some (0, 2) ∧
    (iter_csv_lines ⟨Option.some [','], QuotingMode.text, Option.some ['"']⟩
      (fun _ => Option.none) ⟨[], [[], []]⟩ Option.none true).calls.getLast?
      = Option.some (2, 2) := by
  have h := progress_callback_protocol ⟨Option.some [','], QuotingMode.text, Option.some ['"']⟩
    (fun _ => Option.none) ⟨[], [[], []]⟩
  exact ⟨h.1 5, h.2.1, h.2.2.1⟩

/-- C10: when the configured quote character resolves to empty (possible
with quoting mode `none`, which requires no quote character), the
serializer substitutes the double quote: the effective quote is `"`, the
pass behaves exactly as if `"` had been configured, and a field containing
the separator is wrapped in `"` with doubled-quote escaping, keeping the
output parseable. -/
theorem quote_char_fallback
    (cfg : Settings) (sig : Str → Option Nat) (table : Table)
    (limit : Option Nat) (cb : Bool) (text : Str)
    (hq : cfg.quote_char = Option.none ∨ cfg.quote_char = Option.some []) :
    effective_quote cfg = ['"'] ∧
    iter_csv_lines cfg sig table limit cb
      = iter_csv_lines ⟨cfg.separator, cfg.quoting_mode, Option.some ['"']⟩ sig table limit cb ∧
    (effective_separator cfg ≠ [] → containsSub (effective_separator cfg) text = true →
      format_field cfg.quoting_mode (effective_separator cfg) (effective_quote cfg)
        (text, false) = ['"'] ++ escape_text ['"'] text ++ ['"']) := by
  have heq : effective_quote cfg = ['"'] := by
    rcases hq with h | h <;> simp [effective_quote, orFallback, h]
  have hsepeq : effective_separator ⟨cfg.separator, cfg.quoting_mode, Option.some ['"']⟩
      = effective_separator cfg := rfl
  have heq' : effective_quote ⟨cfg.separator, cfg.quoting_mode, Option.some ['"']⟩
      = ['"'] := rfl
  refine ⟨heq, ?_, ?_⟩
  · have hh : header_line cfg table
        = header_line ⟨cfg.separator, cfg.quoting_mode, Option.some ['"']⟩ table := by
      simp [header_line, heq, hsepeq, heq']
    have hr : row_line cfg sig table
        = row_line ⟨cfg.separator, cfg.quoting_mode, Option.some ['"']⟩ sig table := by
      funext r
      simp [row_line, heq, hsepeq, heq']
    simp [iter_csv_lines, hh, hr]
  · intro hs hcont
    have hnq : needs_quote cfg.quoting_mode (effective_separator cfg) ['"'] text false
        = true :=
      needs_quote_of_structural cfg.quoting_mode (effective_separator cfg) ['"'] text false
        hs (by simp) (by simp [hcont])
    rw [heq]
    simp [format_field, hnq]

theorem quote_char_fallback_witness :
    effective_quote ⟨Option.some [','], QuotingMode.none, Option.none⟩ = ['"'] ∧
    format_field QuotingMode.none [','] ['"'] ("a,b".toList, false)
      = "\"a,b\"".toList := by
  have h := quote_char_fallback ⟨Option.some [','], QuotingMode.none, Option.none⟩
    (fun _ => Option.none) ⟨[], []⟩ Option.none false "a,b".toList (Or.inl rfl)
  refine ⟨h.1, ?_⟩
  have h3 := h.2.2 (by decide) (by decide)
  exact h3.trans (by decide)
